import Mathlib

/-!
# Minimum-type resolution, tuples and actors of `thrust`

A shallow embedding of

* `thrust/detail/type_traits/minimum_type.h` (the pairwise and the n-ary
  minimum-type metafunctions),
* `thrust/iterator/detail/minimum_system.h` (the fallback to the
  `unrelated_systems` marker),
* the cons-list tuple of `thrust/tuple.h` (size, element types, element
  access, assignment of a pair, swap),
* the call operators of `thrust/detail/functional/actor.inl`.

A C++ type is a value of `Ty`; a metafunction `M<...>` is a function into
`Option Ty`, where `some T` says that `M<...>::type` exists and is `T`, and
`none` says that no nested `type` is produced.
-/

set_option autoImplicit false

namespace thrust

/-! ## Types -/

/-- The universe of types handed to the resolvers: opaque tags (execution
contexts, numbered), and the instances `unrelated_systems<Ts...>` of the
variadic marker template of `minimum_system.h`, line 29. -/
inductive Ty where
  | tag (n : Nat)
  | unrelated_systems (Ts : List Ty)

mutual
/-- Identity of two types. -/
def Ty.decEq : (a b : Ty) → Decidable (a = b)
  | .tag m, .tag n =>
    if h : m = n then isTrue (by rw [h]) else isFalse (by intro e; cases e; exact h rfl)
  | .unrelated_systems as, .unrelated_systems bs =>
    match Ty.decEqList as bs with
    | isTrue h => isTrue (by rw [h])
    | isFalse h => isFalse (by intro e; cases e; exact h rfl)
  | .tag _, .unrelated_systems _ => isFalse (by intro e; cases e)
  | .unrelated_systems _, .tag _ => isFalse (by intro e; cases e)
/-- Identity of two type lists. -/
def Ty.decEqList : (as bs : List Ty) → Decidable (as = bs)
  | [], [] => isTrue rfl
  | a :: as, b :: bs =>
    match Ty.decEq a b, Ty.decEqList as bs with
    | isTrue h, isTrue h2 => isTrue (by rw [h, h2])
    | isFalse h, _ => isFalse (by intro e; cases e; exact h rfl)
    | _, isFalse h => isFalse (by intro e; cases e; exact h rfl)
  | [], _ :: _ => isFalse (by intro e; cases e)
  | _ :: _, [] => isFalse (by intro e; cases e)
end

instance : DecidableEq Ty := Ty.decEq

/-- The convertibility oracle `::thrust::detail::is_convertible<From,To>::value`.
Its definition (`thrust/detail/type_traits.h`) depends on the conversions the
program declares, so every definition below takes it as an argument. -/
abbrev Convertible := Ty → Ty → Bool

/-! ## `minimum_type.h` -/

/-- `minimum_type_detail::minimum_type_impl<T1,T2,GreaterEqual,LessEqual>`
(lines 34-52): the primary template is empty, the three partial
specialisations name a `type`. -/
def minimum_type_impl (T1 T2 : Ty) : Bool → Bool → Option Ty
  | true, false => some T2
  | false, true => some T1
  | true, true => some T1
  | false, false => none

/-- `minimum_type_detail::primitive_minimum_type<T1,T2>` (lines 54-71): the
partial specialisation `primitive_minimum_type<T,T>` is chosen for identical
arguments, otherwise the primary template asks `is_convertible` both ways. -/
def primitive_minimum_type (is_convertible : Convertible) (T1 T2 : Ty) : Option Ty :=
  if T1 = T2 then some T1
  else minimum_type_impl T1 T2 (is_convertible T1 T2) (is_convertible T2 T1)

/-- `lazy_minimum_type<T1,T2>` (lines 96-102): it derives from
`minimum_type<typename T1::type, typename T2::type>`, the two-argument base
case of `minimum_type` (lines 91-94), which is `primitive_minimum_type`. The
arguments are metafunctions; when one of them has no nested `type` the
base class cannot be named, and no type is produced. -/
def lazy_minimum_type (is_convertible : Convertible) (T1 T2 : Option Ty) : Option Ty :=
  match T1, T2 with
  | some a, some b => primitive_minimum_type is_convertible a b
  | _, _ => none

/-- `minimum_type<T, Ts...>` (lines 81-115). The primary template needs at
least one argument, so the empty list produces nothing. -/
def minimum_type (is_convertible : Convertible) : List Ty → Option Ty
  | [] => none
  | [T] => some T
  | [T1, T2] => primitive_minimum_type is_convertible T1 T2
  | T1 :: T2 :: T3 :: Ts =>
    lazy_minimum_type is_convertible
      (primitive_minimum_type is_convertible T1 T2)
      (minimum_type is_convertible (T3 :: Ts))

/-! ## `minimum_system.h` -/

/-- Tags ordered by their number: `tag m` converts to `tag n` when `m ≤ n`. -/
def conv_chain : Convertible
  | .tag m, .tag n => decide (m ≤ n)
  | _, _ => false

/-- Every tag converts to every tag. -/
def conv_all : Convertible
  | .tag _, .tag _ => true
  | _, _ => false

/-- No type converts to any type, itself included. -/
def conv_none : Convertible :=
  fun _ _ => false

/-- Only `tag m` to `tag (m+1)`: a relation that is not transitive. -/
def conv_step : Convertible
  | .tag m, .tag n => decide (n = m + 1)
  | _, _ => false

/-- Modelled from the spec: the cons-list representation of a tuple
(`detail::cons<HT,TT>` and the sentinel `null_type`, defined in
`thrust/detail/tuple.inl`; `tuple.h` only derives `tuple<Ts...>` from it,
lines 195-198 and 265-270). Section 3: "a right-leaning cons structure:
`cons(head: H, tail: T)` where `T` is itself a cons or a sentinel empty
tuple marker". The elements are values of one domain `α` of all values. -/
inductive tuple (α : Type) where
  | null_type : tuple α
  | cons (head : α) (tail : tuple α) : tuple α
  deriving DecidableEq

/-- Modelled from the spec: `make_tuple(ts...)` (declared at `tuple.h`
lines 281-284, defined in `thrust/detail/tuple.inl`). Section 4.1: it
"produces a tuple" of its arguments; the tuple is built by the
copy-constructor of lines 217-219, which hands the first argument to the
head and the others to the tail. -/
def make_tuple {α : Type} : List α → tuple α
  | [] => tuple.null_type
  | t :: ts => tuple.cons t (make_tuple ts)

/-- Modelled from the spec: `get<N>(t)` (declared at `tuple.h` lines 118-154
for an argument `cons<HT,TT>`, defined in `thrust/detail/tuple.inl`).
Section 4.1: it returns the Nth element, "defined for `0 <= N < arity`; any
other N is rejected at compile time"; the element is reached as
`tuple_element` reaches its type, "by walking the tail N times". `none` is
the rejection. -/
def get {α : Type} (N : Int) : tuple α → Option α
  | tuple.null_type => none
  | tuple.cons head tail => if N = 0 then some head else get (N - 1) tail

/-- Modelled from the spec: `detail::map_tuple_to_cons<Ts...>::type`
(`thrust/detail/tuple.inl`), the type `tuple<Ts...>` derives from (`tuple.h`
lines 195-198; `tuple<>` derives from `null_type`, lines 265-270). A tuple
type is written as the cons list of its element types: `cons HT TT` stands
for `cons<HT,TT>`, whose members `head_type` and `tail_type` are `HT` and
`TT`, and `null_type` has neither member. -/
def map_tuple_to_cons {τ : Type} : List τ → tuple τ
  | [] => tuple.null_type
  | T :: Ts => tuple.cons T (map_tuple_to_cons Ts)

/-- Modelled from the spec: the value of the specialisations of `tuple_size`
for the empty tuple and for `null_type` (`thrust/detail/tuple.inl`). Section
4.1: the recursion is "defined recursively down to arity zero, which must
terminate the recursion rather than attempt `tail_type` on the sentinel". -/
def tuple_size_null_type : Int := 0

/-- `tuple_size<T>::value` (`tuple.h` lines 85-91):
`1 + tuple_size<typename T::tail_type>::value`, an `int`. -/
def tuple_size {τ : Type} : tuple τ → Int
  | tuple.null_type => tuple_size_null_type
  | tuple.cons _ tail_type => 1 + tuple_size tail_type

/-- Modelled from the spec: the specialisation `tuple_element<0,T>`
(`thrust/detail/tuple.inl`), which ends the walk of section 4.1 at the
element: its `type` is `T::head_type`, which the sentinel does not have. -/
def tuple_element_zero {τ : Type} : tuple τ → Option τ
  | tuple.null_type => none
  | tuple.cons head_type _ => some head_type

/-- `tuple_element<N,T>::type` (`tuple.h` lines 65-75): for `N` other than 0
the primary template names `T::tail_type` as `Next` and answers
`tuple_element<N-1, Next>::type`; on the sentinel there is no `tail_type`
and no type is produced. -/
def tuple_element {τ : Type} : Int → tuple τ → Option τ
  | N, T =>
    if N = 0 then tuple_element_zero T
    else
      match T with
      | tuple.null_type => none
      | tuple.cons _ Next => tuple_element (N - 1) Next

/-- Modelled from the spec: `thrust::pair<U1,U2>` (`thrust/pair.h`), the
"2-element pair-like type" of section 4.1 with the members `first` and
`second` read at `tuple.h` lines 246-247. -/
structure pair (α : Type) where
  first : α
  second : α

/-- `tuple::operator=(const thrust::pair<U1,U2>& k)` (`tuple.h` lines
244-249): `this->head = k.first; this->tail.head = k.second; return *this;`.
The length check of line 245 is a comment. The result is the tuple after the
assignment, to which the returned reference `*this` refers; `none` is the
rejection of the call, when `this->head` or `this->tail.head` does not exist
(`tuple<>` has no such operator at all, lines 265-270). -/
def tuple.operator_assign_pair {α : Type} (self : tuple α) (k : pair α) :
    Option (tuple α) :=
  match self with
  | tuple.cons _ (tuple.cons _ tail) =>
    some (tuple.cons k.first (tuple.cons k.second tail))
  | _ => none

/-- Modelled from the spec: the member `swap` of the cons list
(`thrust/detail/tuple.inl`) that `tuple::swap` forwards to. Section 4.1:
"element-wise swap between two tuples of matching arity"; every two values
of the domain `α` can be swapped. The result is the pair of the two tuples
after the call; `none` is the rejection of tuples whose arities differ. -/
def cons_swap {α : Type} : tuple α → tuple α → Option (tuple α × tuple α)
  | tuple.null_type, tuple.null_type => some (tuple.null_type, tuple.null_type)
  | tuple.cons h1 t1, tuple.cons h2 t2 =>
    match cons_swap t1 t2 with
    | some (s1, s2) => some (tuple.cons h2 s1, tuple.cons h1 s2)
    | none => none
  | _, _ => none

/-- `tuple::swap(tuple &t)` (`tuple.h` lines 255-259): `inherited::swap(t)`. -/
def tuple.swap {α : Type} (self t : tuple α) : Option (tuple α × tuple α) :=
  cons_swap self t

/-- Modelled from the spec: the free function `swap(x, y)` (declared at
`tuple.h` lines 301-306, defined in `thrust/detail/tuple.inl`), section 4.1:
the element-wise swap of two tuples, which is the member `swap`. -/
def swap {α : Type} (x y : tuple α) : Option (tuple α × tuple α) :=
  tuple.swap x y

/-! ## `actor.inl` -/

/-- Modelled from the spec: `tie(ts...)` (declared at `tuple.h` lines
292-294, defined in `thrust/detail/tuple.inl`). Section 4.1: "a tuple of
references bound to the arguments ... no copies are made". The caller's
arguments are a list of variables, and a reference to one of them is its
position in that list, so the tuple holds the positions in their order. -/
def tie {α : Type} (ts : List α) : tuple Nat :=
  make_tuple (List.range ts.length)

/-- An `actor<Eval>`, which derives from its evaluable `Eval`
(`actor.inl` lines 39-51); the evaluable is known by its member `eval`,
defined by the node types of `thrust/detail/functional`. `eval` is given
the environment (the marker `null_type` or a tuple of references) and the
caller's variables; it answers with its result and the variables as it
leaves them, or with `none` when it does not resolve against the
environment. -/
structure actor (α β : Type) where
  eval : tuple Nat → List α → Option (β × List α)

/-- What a call of an actor leaves behind: the value returned, the actor
after the call and the caller's arguments after the call. -/
structure invocation (α β : Type) where
  result : β
  self : actor α β
  args : List α

/-- `actor<Eval>::operator()` (`actor.inl` lines 53-76): without arguments
`eval_type::eval(thrust::null_type())`, with arguments
`eval_type::eval(thrust::tie(ts...))`. Both operators are `const`, so the
actor after the call is the actor before it. -/
def actor.operator_call {α β : Type} (self : actor α β) (ts : List α) :
    Option (invocation α β) :=
  match ts with
  | [] =>
    (self.eval tuple.null_type []).map (fun r => ⟨r.1, self, r.2⟩)
  | _ :: _ =>
    (self.eval (tie ts) ts).map (fun r => ⟨r.1, self, r.2⟩)

/-- Modelled from the spec: the evaluable "first argument plus one" of
section 8 (a placeholder and an operator node of
`thrust/detail/functional`). It reads the variable that slot 0 of the
environment refers to and adds one, a "pure read"; on an environment
without slot 0 the placeholder does not resolve (section 4.5). -/
def first_argument_plus_one : actor Int Int where
  eval env vars :=
    match get 0 env with
    | some r =>
      match vars.get? r with
      | some x => some (x + 1, vars)
      | none => none
    | none => none

/-! ## Further definitions for the comparisons below -/

/-- Tags 0 and 1 both convert to tag 2 and every tag converts to itself; tags
0 and 1 are unrelated. A partial order. -/
def conv_join : Convertible
  | .tag 0, .tag 2 => true
  | .tag 1, .tag 2 => true
  | .tag m, .tag n => decide (m = n)
  | _, _ => false

/-- The right fold that section 4.3 of the spec describes, in its words:
for one type the type itself, for two the pairwise resolver, and for three
or more "compute `min(T1..Tn-1)` first, then resolve `min(T0, that-result)`",
an undefined intermediate result leaving the whole undefined. It is compared
with `minimum_type`, which is the translation of the source. -/
def minimum_type_right_fold (is_convertible : Convertible) : List Ty → Option Ty
  | [] => none
  | [T] => some T
  | [T0, T1] => primitive_minimum_type is_convertible T0 T1
  | T0 :: T1 :: T2 :: Ts =>
    (minimum_type_right_fold is_convertible (T1 :: T2 :: Ts)).bind
      (fun M => primitive_minimum_type is_convertible T0 M)

/-- The operand the pairwise resolver answers with when its two arguments are
related: the left one when the arguments are identical or the right one
converts to the left one, the right one otherwise. It states the lemmas
that compare `minimum_type` with `minimum_type_right_fold`. -/
def pair_winner (is_convertible : Convertible) (T1 T2 : Ty) : Ty :=
  if T1 = T2 ∨ is_convertible T2 T1 = true then T1 else T2

/-! ## The pairwise resolver -/

theorem minimum_type_single (conv : Convertible) (T : Ty) :
    minimum_type conv [T] = some T := rfl

theorem minimum_type_pair (conv : Convertible) (T1 T2 : Ty) :
    minimum_type conv [T1, T2] = primitive_minimum_type conv T1 T2 := rfl

theorem minimum_type_many (conv : Convertible) (T1 T2 T3 : Ty) (Ts : List Ty) :
    minimum_type conv (T1 :: T2 :: T3 :: Ts) =
      lazy_minimum_type conv (minimum_type conv [T1, T2]) (minimum_type conv (T3 :: Ts)) := rfl

theorem primitive_minimum_type_self (conv : Convertible) (T : Ty) :
    primitive_minimum_type conv T T = some T := by
  simp [primitive_minimum_type]

theorem primitive_minimum_type_of_ne (conv : Convertible) {T1 T2 : Ty} (h : T1 ≠ T2) :
    primitive_minimum_type conv T1 T2 = minimum_type_impl T1 T2 (conv T1 T2) (conv T2 T1) := by
  simp [primitive_minimum_type, h]

theorem primitive_minimum_type_eq_none (conv : Convertible) (T1 T2 : Ty) :
    primitive_minimum_type conv T1 T2 = none ↔
      T1 ≠ T2 ∧ conv T1 T2 = false ∧ conv T2 T1 = false := by
  by_cases h : T1 = T2
  · subst h
    simp [primitive_minimum_type]
  · rw [primitive_minimum_type_of_ne conv h]
    cases h12 : conv T1 T2 <;> cases h21 : conv T2 T1 <;> simp [minimum_type_impl, h]

/-- C1. For distinct types `A` and `B`: `minimum_type<A,B>` is `B` when `A`
converts to `B` and `B` does not convert to `A`; it is `A` when `B` converts
to `A` and `A` does not convert to `B`; it is `A`, the left operand, when
both conversions exist. -/
theorem minimum_type_pair_table (conv : Convertible) (A B : Ty) (hne : A ≠ B) :
    (conv A B = true → conv B A = false → minimum_type conv [A, B] = some B) ∧
    (conv B A = true → conv A B = false → minimum_type conv [A, B] = some A) ∧
    (conv A B = true → conv B A = true → minimum_type conv [A, B] = some A) := by
  rw [minimum_type_pair, primitive_minimum_type_of_ne conv hne]
  refine ⟨?_, ?_, ?_⟩ <;> intro h1 h2 <;> simp [h1, h2, minimum_type_impl]

theorem minimum_type_pair_table_witness :
    Ty.tag 0 ≠ Ty.tag 1 ∧
    minimum_type conv_chain [Ty.tag 0, Ty.tag 1] = some (Ty.tag 1) ∧
    minimum_type conv_chain [Ty.tag 1, Ty.tag 0] = some (Ty.tag 1) ∧
    minimum_type conv_all [Ty.tag 0, Ty.tag 1] = some (Ty.tag 0) :=
  ⟨by decide,
   (minimum_type_pair_table conv_chain (Ty.tag 0) (Ty.tag 1) (by decide)).1
     (by decide) (by decide),
   (minimum_type_pair_table conv_chain (Ty.tag 1) (Ty.tag 0) (by decide)).2.1
     (by decide) (by decide),
   (minimum_type_pair_table conv_all (Ty.tag 0) (Ty.tag 1) (by decide)).2.2
     (by decide) (by decide)⟩

/-- C2, as stated, fails: tag 0 converts to tag 1 and not back, yet
`minimum_type<tag 0, tag 1>` is tag 1, not tag 0. -/
theorem minimum_type_one_way_not_source :
    conv_chain (Ty.tag 0) (Ty.tag 1) = true ∧
    conv_chain (Ty.tag 1) (Ty.tag 0) = false ∧
    minimum_type conv_chain [Ty.tag 0, Ty.tag 1] = some (Ty.tag 1) ∧
    minimum_type conv_chain [Ty.tag 0, Ty.tag 1] ≠ some (Ty.tag 0) := by
  decide

/-- C2, amended. For all types `A` and `B` such that `A` is convertible to
`B` but `B` is not convertible to `A`, `minimum_type<A,B>` is `B`, the
target of the one conversion that exists. -/
theorem minimum_type_one_way (conv : Convertible) (A B : Ty)
    (hAB : conv A B = true) (hBA : conv B A = false) :
    minimum_type conv [A, B] = some B := by
  have hne : A ≠ B := by
    intro h
    subst h
    rw [hAB] at hBA
    exact Bool.noConfusion hBA
  rw [minimum_type_pair, primitive_minimum_type_of_ne conv hne, hAB, hBA]
  rfl

theorem minimum_type_one_way_witness :
    minimum_type conv_chain [Ty.tag 3, Ty.tag 7] = some (Ty.tag 7) :=
  minimum_type_one_way conv_chain (Ty.tag 3) (Ty.tag 7) (by decide) (by decide)

/-- C3. For every type `T` and every convertibility relation,
`minimum_type<T,T>` is defined and is `T`; the relation is not asked. -/
theorem minimum_type_identical (conv : Convertible) (T : Ty) :
    minimum_type conv [T, T] = some T :=
  primitive_minimum_type_self conv T

/-- C4. `minimum_type<A,B>` produces no type if and only if `A` and `B` are
distinct and neither is convertible to the other; otherwise it is defined. -/
theorem minimum_type_pair_undefined_iff (conv : Convertible) (A B : Ty) :
    (minimum_type conv [A, B] = none ↔
      A ≠ B ∧ conv A B = false ∧ conv B A = false) ∧
    (¬ (A ≠ B ∧ conv A B = false ∧ conv B A = false) →
      ∃ R, minimum_type conv [A, B] = some R) := by
  have key := primitive_minimum_type_eq_none conv A B
  refine ⟨key, fun h => ?_⟩
  rw [minimum_type_pair]
  cases hm : primitive_minimum_type conv A B with
  | none => exact absurd (key.mp hm) h
  | some R => exact ⟨R, rfl⟩

theorem minimum_type_pair_undefined_iff_witness :
    minimum_type conv_none [Ty.tag 0, Ty.tag 1] = none ∧
    ∃ R, minimum_type conv_chain [Ty.tag 0, Ty.tag 1] = some R :=
  ⟨(minimum_type_pair_undefined_iff conv_none (Ty.tag 0) (Ty.tag 1)).1.mpr (by decide),
   (minimum_type_pair_undefined_iff conv_chain (Ty.tag 0) (Ty.tag 1)).2 (by decide)⟩

/-! ## The fallback of `minimum_system` -/

theorem primitive_minimum_type_spec (conv : Convertible) {a b R : Ty}
    (h : primitive_minimum_type conv a b = some R) :
    (R = a ∨ R = b) ∧ (a = R ∨ conv a R = true) ∧ (b = R ∨ conv b R = true) := by
  by_cases hab : a = b
  · subst hab
    rw [primitive_minimum_type_self] at h
    cases h
    exact ⟨Or.inl rfl, Or.inl rfl, Or.inl rfl⟩
  · rw [primitive_minimum_type_of_ne conv hab] at h
    cases h1 : conv a b <;> cases h2 : conv b a <;>
      simp [minimum_type_impl, h1, h2] at h <;> subst h <;> simp [h1, h2]

theorem lazy_minimum_type_eq_some (conv : Convertible) {M1 M2 : Option Ty} {R : Ty}
    (h : lazy_minimum_type conv M1 M2 = some R) :
    ∃ a b, M1 = some a ∧ M2 = some b ∧ primitive_minimum_type conv a b = some R := by
  cases M1 with
  | none => simp [lazy_minimum_type] at h
  | some a =>
    cases M2 with
    | none => simp [lazy_minimum_type] at h
    | some b => exact ⟨a, b, rfl, rfl, h⟩

/-- The resolver only ever answers with one of its arguments. -/
theorem minimum_type_mem (conv : Convertible) :
    ∀ (Ts : List Ty) (R : Ty), minimum_type conv Ts = some R → R ∈ Ts
  | [], R, h => by simp [minimum_type] at h
  | [T], R, h => by
    simp [minimum_type] at h
    simp [h]
  | [T1, T2], R, h => by
    rcases (primitive_minimum_type_spec conv h).1 with h1 | h1 <;> simp [h1]
  | T1 :: T2 :: T3 :: Ts, R, h => by
    rw [minimum_type_many] at h
    obtain ⟨a, b, ha, hb, hR⟩ := lazy_minimum_type_eq_some conv h
    have hamem : a ∈ [T1, T2] := by
      rcases (primitive_minimum_type_spec conv ha).1 with h1 | h1 <;> simp [h1]
    have hbmem := minimum_type_mem conv (T3 :: Ts) b hb
    have hcase := (primitive_minimum_type_spec conv hR).1
    rcases hcase with h1 | h1
    · subst h1
      simp only [List.mem_cons, List.mem_singleton, List.not_mem_nil, or_false] at hamem
      rcases hamem with e | e <;> simp [e]
    · subst h1
      exact List.mem_cons_of_mem _ (List.mem_cons_of_mem _ hbmem)

/-- Under a relation that is transitive on the members of the list, every
member is the result or converts to it. -/
theorem minimum_type_upper (conv : Convertible) :
    ∀ (Ts : List Ty) (R : Ty),
      (∀ a ∈ Ts, ∀ b ∈ Ts, ∀ c ∈ Ts,
        conv a b = true → conv b c = true → conv a c = true) →
      minimum_type conv Ts = some R → ∀ T ∈ Ts, T = R ∨ conv T R = true
  | [], R, _, h => by simp [minimum_type] at h
  | [T0], R, _, h => by
    simp [minimum_type] at h
    intro T hT
    simp at hT
    exact Or.inl (hT.trans h)
  | [T1, T2], R, _, h => by
    have hs := primitive_minimum_type_spec conv h
    intro T hT
    simp only [List.mem_cons, List.mem_singleton, List.not_mem_nil, or_false] at hT
    rcases hT with e | e
    · rw [e]; exact hs.2.1
    · rw [e]; exact hs.2.2
  | T1 :: T2 :: T3 :: Ts, R, htrans, h => by
    have hfull := minimum_type_mem conv _ R h
    rw [minimum_type_many] at h
    obtain ⟨a, b, ha, hb, hR⟩ := lazy_minimum_type_eq_some conv h
    have hamem : a ∈ T1 :: T2 :: T3 :: Ts := by
      rcases (primitive_minimum_type_spec conv ha).1 with e | e <;> simp [e]
    have hbmem : b ∈ T1 :: T2 :: T3 :: Ts :=
      List.mem_cons_of_mem _ (List.mem_cons_of_mem _ (minimum_type_mem conv _ b hb))
    have hs := primitive_minimum_type_spec conv hR
    have hpair : ∀ T ∈ [T1, T2], T = a ∨ conv T a = true := by
      have hsa := primitive_minimum_type_spec conv ha
      intro T hT
      simp only [List.mem_cons, List.mem_singleton, List.not_mem_nil, or_false] at hT
      rcases hT with e | e
      · rw [e]; exact hsa.2.1
      · rw [e]; exact hsa.2.2
    have hrest : ∀ T ∈ T3 :: Ts, T = b ∨ conv T b = true :=
      minimum_type_upper conv (T3 :: Ts) b
        (fun x hx y hy z hz => htrans x
          (List.mem_cons_of_mem _ (List.mem_cons_of_mem _ hx)) y
          (List.mem_cons_of_mem _ (List.mem_cons_of_mem _ hy)) z
          (List.mem_cons_of_mem _ (List.mem_cons_of_mem _ hz))) hb
    have lift : ∀ (m : Ty), m ∈ T1 :: T2 :: T3 :: Ts → (m = R ∨ conv m R = true) →
        ∀ T, T ∈ T1 :: T2 :: T3 :: Ts → (T = m ∨ conv T m = true) →
          T = R ∨ conv T R = true := by
      intro m hm hmR T hT hTm
      rcases hTm with e | e
      · rw [e]; exact hmR
      · rcases hmR with e2 | e2
        · rw [← e2]; exact Or.inr e
        · exact Or.inr (htrans T hT m hm R hfull e e2)
    intro T hT
    have hsplit : T ∈ [T1, T2] ∨ T ∈ T3 :: Ts := by
      simp only [List.mem_cons, List.mem_singleton, List.not_mem_nil, or_false] at hT ⊢
      tauto
    rcases hsplit with hl | hr
    · exact lift a hamem hs.2.1 T hT (hpair T hl)
    · exact lift b hbmem hs.2.2 T hT (hrest T hr)

/-! ## When the marker is the answer -/

/-- C7, as stated, fails: under the relation `conv_step`, which is not
transitive, `minimum_type` of tag 0, tag 1, tag 2 is tag 2, and the member
tag 0 is not convertible to it. -/
theorem minimum_type_result_not_common_target :
    minimum_type conv_step [Ty.tag 0, Ty.tag 1, Ty.tag 2] = some (Ty.tag 2) ∧
    Ty.tag 0 ∈ [Ty.tag 0, Ty.tag 1, Ty.tag 2] ∧
    Ty.tag 0 ≠ Ty.tag 2 ∧
    conv_step (Ty.tag 0) (Ty.tag 2) = false := by
  decide

/-- C7, amended. For every type list on whose members convertibility is
transitive and on which `minimum_type` is defined with result `R`, every
member of the list other than `R` is convertible to `R`. -/
theorem minimum_type_common_target (conv : Convertible) (Ts : List Ty) (R : Ty)
    (htrans : ∀ a ∈ Ts, ∀ b ∈ Ts, ∀ c ∈ Ts,
      conv a b = true → conv b c = true → conv a c = true)
    (h : minimum_type conv Ts = some R) :
    ∀ T ∈ Ts, T ≠ R → conv T R = true := by
  intro T hT hTR
  rcases minimum_type_upper conv Ts R htrans h T hT with e | e
  · exact absurd e hTR
  · exact e

theorem conv_chain_trans (a b c : Ty)
    (h1 : conv_chain a b = true) (h2 : conv_chain b c = true) : conv_chain a c = true := by
  cases a <;> cases b <;> cases c <;> simp_all [conv_chain]
  omega

theorem minimum_type_common_target_witness :
    minimum_type conv_chain [Ty.tag 2, Ty.tag 5, Ty.tag 3] = some (Ty.tag 5) ∧
    ∀ T ∈ [Ty.tag 2, Ty.tag 5, Ty.tag 3], T ≠ Ty.tag 5 → conv_chain T (Ty.tag 5) = true :=
  ⟨by decide,
   minimum_type_common_target conv_chain [Ty.tag 2, Ty.tag 5, Ty.tag 3] (Ty.tag 5)
     (fun a _ b _ c _ => conv_chain_trans a b c) (by decide)⟩

/-! ## Chains and three or more arguments -/

/-- C8, as stated, fails: tag 0 converts to tag 1 and tag 1 to tag 2, yet
`minimum_type` of the three is tag 2, not tag 0. -/
theorem minimum_type_chain_not_first :
    conv_chain (Ty.tag 0) (Ty.tag 1) = true ∧
    conv_chain (Ty.tag 1) (Ty.tag 2) = true ∧
    minimum_type conv_chain [Ty.tag 0, Ty.tag 1, Ty.tag 2] = some (Ty.tag 2) ∧
    minimum_type conv_chain [Ty.tag 0, Ty.tag 1, Ty.tag 2] ≠ some (Ty.tag 0) := by
  decide

/-- C8, amended. For all types `A`, `B`, `C` such that `A` converts to `B`,
`B` to `C` and `A` to `C`, and `C` converts back to neither `A` nor `B`,
`minimum_type<A,B,C>` is `C`, the end of the chain, and this equals
`minimum_type<A, minimum_type<B,C>>`. -/
theorem minimum_type_chain (conv : Convertible) (A B C : Ty)
    (hAB : conv A B = true) (hBC : conv B C = true) (hAC : conv A C = true)
    (hCA : conv C A = false) (hCB : conv C B = false) :
    minimum_type conv [A, B, C] = some C ∧
    (minimum_type conv [B, C]).bind (fun M => minimum_type conv [A, M]) = some C := by
  have hBCne : B ≠ C := by
    intro e; subst e; rw [hBC] at hCB; exact Bool.noConfusion hCB
  have hACne : A ≠ C := by
    intro e; subst e; rw [hAC] at hCA; exact Bool.noConfusion hCA
  have hA : primitive_minimum_type conv A C = some C := by
    rw [primitive_minimum_type_of_ne conv hACne, hAC, hCA]; rfl
  have hB : primitive_minimum_type conv B C = some C := by
    rw [primitive_minimum_type_of_ne conv hBCne, hBC, hCB]; rfl
  constructor
  · rw [minimum_type_many, minimum_type_single, minimum_type_pair]
    by_cases hne : A = B
    · subst hne
      rw [primitive_minimum_type_self]
      exact hA
    · rw [primitive_minimum_type_of_ne conv hne, hAB]
      cases hBA : conv B A
      · exact hB
      · exact hA
  · rw [minimum_type_pair, hB]
    exact hA

theorem minimum_type_chain_witness :
    minimum_type conv_chain [Ty.tag 0, Ty.tag 1, Ty.tag 2] = some (Ty.tag 2) ∧
    (minimum_type conv_chain [Ty.tag 1, Ty.tag 2]).bind
      (fun M => minimum_type conv_chain [Ty.tag 0, M]) = some (Ty.tag 2) :=
  minimum_type_chain conv_chain (Ty.tag 0) (Ty.tag 1) (Ty.tag 2)
    (by decide) (by decide) (by decide) (by decide) (by decide)

theorem get_zero_cons {α : Type} (head : α) (tail : tuple α) :
    get 0 (tuple.cons head tail) = some head := by
  simp [get]

theorem get_succ_cons {α : Type} (n : Nat) (head : α) (tail : tuple α) :
    get ((n : Int) + 1) (tuple.cons head tail) = get (n : Int) tail := by
  have h : ((n : Int) + 1) ≠ 0 := by omega
  simp [get, h]

/-- C10. Tuple round trip: for every argument list `vs` of any length and
every index `i` below that length, `get<i>(make_tuple(vs...))` is the
`i`-th argument. -/
theorem get_make_tuple {α : Type} (vs : List α) (i : Nat) (hi : i < vs.length) :
    get (i : Int) (make_tuple vs) = some (vs.get ⟨i, hi⟩) := by
  induction vs generalizing i with
  | nil => exact absurd hi (Nat.not_lt_zero i)
  | cons v vs ih =>
    cases i with
    | zero => exact get_zero_cons v (make_tuple vs)
    | succ n =>
      have hn : n < vs.length := Nat.lt_of_succ_lt_succ hi
      show get (((n + 1 : Nat)) : Int) (tuple.cons v (make_tuple vs)) = _
      rw [Nat.cast_succ, get_succ_cons]
      exact ih n hn

theorem get_make_tuple_witness :
    get (3 : Int) (make_tuple [10, 20, 30, 40, 50]) = some 40 :=
  get_make_tuple [10, 20, 30, 40, 50] 3 (by decide)

/-! ## Size and element types of a tuple type -/

theorem tuple_size_null (τ : Type) : tuple_size (tuple.null_type : tuple τ) = 0 := rfl

theorem tuple_size_cons {τ : Type} (HT : τ) (TT : tuple τ) :
    tuple_size (tuple.cons HT TT) = 1 + tuple_size TT := rfl

theorem tuple_size_nonneg {τ : Type} (T : tuple τ) : 0 ≤ tuple_size T := by
  induction T with
  | null_type => exact le_refl _
  | cons HT TT ih =>
    rw [tuple_size_cons]
    omega

theorem tuple_element_null {τ : Type} (N : Int) :
    tuple_element N (tuple.null_type : tuple τ) = none := by
  rw [tuple_element]
  split <;> rfl

theorem tuple_element_cons {τ : Type} (N : Int) (HT : τ) (TT : tuple τ) :
    tuple_element N (tuple.cons HT TT) =
      if N = 0 then some HT else tuple_element (N - 1) TT := by
  rw [tuple_element]
  rfl

/-- C11. For every list of `n` element types, `tuple_size` of the tuple type
with these elements is `n`: it is `1 +` the size of the tail, and the
recursion ends at the empty tuple, whose size is 0. -/
theorem tuple_size_map_tuple_to_cons {τ : Type} (Ts : List τ) :
    tuple_size (map_tuple_to_cons Ts) = (Ts.length : Int) ∧
    (∀ (T : τ) (Us : List τ),
      tuple_size (map_tuple_to_cons (T :: Us)) = 1 + tuple_size (map_tuple_to_cons Us)) ∧
    tuple_size (map_tuple_to_cons ([] : List τ)) = 0 := by
  refine ⟨?_, fun _ _ => rfl, rfl⟩
  induction Ts with
  | nil => rfl
  | cons T Ts ih =>
    show 1 + tuple_size (map_tuple_to_cons Ts) = ((Ts.length + 1 : Nat) : Int)
    rw [ih]
    omega

/-- C12. For the tuple type with the element types `Ts` and every integer
`N`: `tuple_element<N, tuple>` is the `N`-th element type when
`0 <= N < n`, and it yields no type for every other `N`, negative or at
least `n`. -/
theorem tuple_element_map_tuple_to_cons {τ : Type} (Ts : List τ) (N : Int) :
    (∀ (i : Nat) (hi : i < Ts.length), N = (i : Int) →
      tuple_element N (map_tuple_to_cons Ts) = some (Ts.get ⟨i, hi⟩)) ∧
    ((N < 0 ∨ (Ts.length : Int) ≤ N) →
      tuple_element N (map_tuple_to_cons Ts) = none) := by
  induction Ts generalizing N with
  | nil =>
    refine ⟨fun i hi _ => absurd hi (Nat.not_lt_zero i), fun _ => ?_⟩
    exact tuple_element_null N
  | cons T Ts ih =>
    constructor
    · intro i hi hN
      show tuple_element N (tuple.cons T (map_tuple_to_cons Ts)) = _
      rw [tuple_element_cons]
      cases i with
      | zero =>
        have h0 : N = 0 := by simpa using hN
        simp [h0]
      | succ j =>
        have hne : N ≠ 0 := by
          rw [hN]
          push_cast
          omega
        rw [if_neg hne]
        have hj : j < Ts.length := Nat.lt_of_succ_lt_succ hi
        have hN1 : N - 1 = (j : Int) := by
          rw [hN]
          push_cast
          omega
        rw [(ih (N - 1)).1 j hj hN1]
        rfl
    · intro hN
      show tuple_element N (tuple.cons T (map_tuple_to_cons Ts)) = none
      rw [tuple_element_cons]
      have hlen : (((T :: Ts).length : Nat) : Int) = (Ts.length : Int) + 1 := by
        simp
      have hne : N ≠ 0 := by
        rcases hN with h | h
        · omega
        · rw [hlen] at h
          omega
      rw [if_neg hne]
      apply (ih (N - 1)).2
      rcases hN with h | h
      · left
        omega
      · right
        rw [hlen] at h
        omega

theorem tuple_element_map_tuple_to_cons_witness :
    tuple_element 1 (map_tuple_to_cons [10, 20, 30]) = some 20 ∧
    tuple_element (-1) (map_tuple_to_cons [10, 20, 30]) = none ∧
    tuple_element 3 (map_tuple_to_cons [10, 20, 30]) = none :=
  ⟨(tuple_element_map_tuple_to_cons [10, 20, 30] 1).1 1 (by decide) rfl,
   (tuple_element_map_tuple_to_cons [10, 20, 30] (-1)).2 (Or.inl (by decide)),
   (tuple_element_map_tuple_to_cons [10, 20, 30] 3).2 (Or.inr (by decide))⟩

/-! ## Assignment of a pair -/

/-- C13, as stated, fails: a tuple of arity 3 accepts the assignment of a
pair, which writes its first two elements. -/
theorem operator_assign_pair_arity_three :
    tuple_size (make_tuple [1, 2, 3]) ≠ 2 ∧
    (make_tuple [1, 2, 3]).operator_assign_pair ⟨7, 8⟩ = some (make_tuple [7, 8, 3]) := by
  decide

/-- C13, amended. Assigning a pair to a tuple is rejected exactly for the
tuples of arity less than 2, which have no second element; every tuple of
arity 2 or more accepts it. -/
theorem operator_assign_pair_rejected_iff {α : Type} (self : tuple α) (k : pair α) :
    self.operator_assign_pair k = none ↔ tuple_size self < 2 := by
  cases self with
  | null_type =>
    simp [tuple.operator_assign_pair, tuple_size_null]
  | cons h t =>
    cases t with
    | null_type =>
      simp [tuple.operator_assign_pair, tuple_size_cons, tuple_size_null]
    | cons h2 t2 =>
      have := tuple_size_nonneg t2
      simp only [tuple.operator_assign_pair, tuple_size_cons]
      constructor
      · intro h
        cases h
      · intro h
        omega

theorem cons_swap_same_arity {α : Type} :
    ∀ (t1 t2 : tuple α), tuple_size t1 = tuple_size t2 → cons_swap t1 t2 = some (t2, t1)
  | tuple.null_type, tuple.null_type, _ => rfl
  | tuple.null_type, tuple.cons h2 t2, h => by
    have := tuple_size_nonneg t2
    rw [tuple_size_null, tuple_size_cons] at h
    omega
  | tuple.cons h1 t1, tuple.null_type, h => by
    have := tuple_size_nonneg t1
    rw [tuple_size_null, tuple_size_cons] at h
    omega
  | tuple.cons h1 t1, tuple.cons h2 t2, h => by
    have ht : tuple_size t1 = tuple_size t2 := by
      rw [tuple_size_cons, tuple_size_cons] at h
      omega
    simp [cons_swap, cons_swap_same_arity t1 t2 ht]

/-- C15. For every two tuples of the same arity, `swap` is defined; after
it each element of the first tuple is the element the second held at that
index before and vice versa, and a second `swap` gives back both tuples as
they were. -/
theorem swap_exchanges {α : Type} (t1 t2 : tuple α)
    (h : tuple_size t1 = tuple_size t2) :
    ∃ s1 s2, swap t1 t2 = some (s1, s2) ∧
      (∀ N : Int, get N s1 = get N t2 ∧ get N s2 = get N t1) ∧
      swap s1 s2 = some (t1, t2) := by
  refine ⟨t2, t1, cons_swap_same_arity t1 t2 h, fun N => ⟨rfl, rfl⟩, ?_⟩
  exact cons_swap_same_arity t2 t1 h.symm

theorem swap_exchanges_witness :
    ∃ s1 s2, swap (make_tuple [1, 2, 3]) (make_tuple [4, 5, 6]) = some (s1, s2) ∧
      (∀ N : Int, get N s1 = get N (make_tuple [4, 5, 6]) ∧
        get N s2 = get N (make_tuple [1, 2, 3])) ∧
      swap s1 s2 = some (make_tuple [1, 2, 3], make_tuple [4, 5, 6]) :=
  swap_exchanges (make_tuple [1, 2, 3]) (make_tuple [4, 5, 6]) (by decide)

/-! ## Calling an actor -/

theorem get_make_tuple_range (n i : Nat) (hi : i < n) :
    get (i : Int) (make_tuple (List.range n)) = some i := by
  have hlen : i < (List.range n).length := by
    rw [List.length_range]
    exact hi
  have key : ∀ (vs : List Nat) (j : Nat) (hj : j < vs.length),
      get (j : Int) (make_tuple vs) = some (vs.get ⟨j, hj⟩) := by
    intro vs
    induction vs with
    | nil => intro j hj; exact absurd hj (Nat.not_lt_zero j)
    | cons v vs ih =>
      intro j hj
      cases j with
      | zero => exact get_zero_cons v (make_tuple vs)
      | succ m =>
        show get (((m + 1 : Nat)) : Int) (tuple.cons v (make_tuple vs)) = _
        rw [Nat.cast_succ, get_succ_cons]
        exact ih m (Nat.lt_of_succ_lt_succ hj)
  rw [key (List.range n) i hlen]
  simp

theorem tuple_size_make_tuple {α : Type} (vs : List α) :
    tuple_size (make_tuple vs) = (vs.length : Int) := by
  induction vs with
  | nil => rfl
  | cons v vs ih =>
    show 1 + tuple_size (make_tuple vs) = ((vs.length + 1 : Nat) : Int)
    rw [ih]
    omega

/-- C16. For every actor: called with one or more arguments it returns what
its evaluable's `eval` returns on the reference tuple `tie` of the
arguments, whose arity is the number of arguments and whose slot `i` refers
to the caller's `i`-th argument itself; called with no argument it returns
what `eval` returns on the marker `null_type`; the actor after a call is
the actor before it; and the actor "first argument plus one" called on
`x = 4` returns 5 and leaves `x` at 4. -/
theorem actor_operator_call {α β : Type} (a : actor α β) :
    (∀ (t : α) (ts : List α),
      a.operator_call (t :: ts) =
        (a.eval (tie (t :: ts)) (t :: ts)).map (fun r => ⟨r.1, a, r.2⟩) ∧
      tuple_size (tie (t :: ts)) = ((t :: ts).length : Int) ∧
      ∀ i : Nat, i < (t :: ts).length → get (i : Int) (tie (t :: ts)) = some i) ∧
    a.operator_call [] = (a.eval tuple.null_type []).map (fun r => ⟨r.1, a, r.2⟩) ∧
    (∀ (ts : List α) (c : invocation α β), a.operator_call ts = some c → c.self = a) ∧
    (first_argument_plus_one.operator_call [4]).map (fun c => (c.result, c.args)) =
      some (5, [4]) := by
  refine ⟨fun t ts => ⟨rfl, ?_, ?_⟩, rfl, ?_, by decide⟩
  · rw [tie, tuple_size_make_tuple, List.length_range]
  · intro i hi
    exact get_make_tuple_range _ i hi
  · intro ts c hc
    cases ts with
    | nil =>
      simp only [actor.operator_call, Option.map_eq_some'] at hc
      obtain ⟨r, _, hr⟩ := hc
      rw [← hr]
    | cons t ts =>
      simp only [actor.operator_call, Option.map_eq_some'] at hc
      obtain ⟨r, _, hr⟩ := hc
      rw [← hr]

theorem actor_operator_call_witness :
    first_argument_plus_one.operator_call [4, 9] =
      (first_argument_plus_one.eval (tie [(4 : Int), 9]) [4, 9]).map
        (fun r => ⟨r.1, first_argument_plus_one, r.2⟩) ∧
    get ((1 : Nat) : Int) (tie [(4 : Int), 9]) = some 1 :=
  ⟨((actor_operator_call first_argument_plus_one).1 4 [9]).1,
   ((actor_operator_call first_argument_plus_one).1 4 [9]).2.2 1 (by decide)⟩

/-! ## Properties of the result for every arity -/

/-- C18. If convertibility is transitive on the types of a list and
`minimum_type` of the list is defined with result `R`, then the type at
every position of the list is identical to `R` or convertible to `R`. -/
theorem minimum_type_every_member (conv : Convertible) (Ts : List Ty) (R : Ty)
    (htrans : ∀ a ∈ Ts, ∀ b ∈ Ts, ∀ c ∈ Ts,
      conv a b = true → conv b c = true → conv a c = true)
    (h : minimum_type conv Ts = some R) :
    Ts ≠ [] ∧
    ∀ (i : Nat) (hi : i < Ts.length), Ts.get ⟨i, hi⟩ = R ∨ conv (Ts.get ⟨i, hi⟩) R = true := by
  constructor
  · intro e
    rw [e] at h
    simp [minimum_type] at h
  · intro i hi
    exact minimum_type_upper conv Ts R htrans h _ (List.get_mem Ts i hi)

theorem minimum_type_every_member_witness :
    [Ty.tag 2, Ty.tag 5, Ty.tag 3, Ty.tag 5] ≠ [] ∧
    ∀ (i : Nat) (hi : i < [Ty.tag 2, Ty.tag 5, Ty.tag 3, Ty.tag 5].length),
      [Ty.tag 2, Ty.tag 5, Ty.tag 3, Ty.tag 5].get ⟨i, hi⟩ = Ty.tag 5 ∨
      conv_chain ([Ty.tag 2, Ty.tag 5, Ty.tag 3, Ty.tag 5].get ⟨i, hi⟩) (Ty.tag 5) = true :=
  minimum_type_every_member conv_chain [Ty.tag 2, Ty.tag 5, Ty.tag 3, Ty.tag 5] (Ty.tag 5)
    (fun a _ b _ c _ => conv_chain_trans a b c) (by decide)

/-- C19. For every type list and every convertibility relation, whenever
`minimum_type` of the list is defined its result is the type at one of the
positions of the list. -/
theorem minimum_type_is_argument (conv : Convertible) (Ts : List Ty) (R : Ty)
    (h : minimum_type conv Ts = some R) :
    ∃ (i : Nat) (hi : i < Ts.length), Ts.get ⟨i, hi⟩ = R := by
  have hmem := minimum_type_mem conv Ts R h
  obtain ⟨n, hn⟩ := List.get_of_mem hmem
  exact ⟨n.1, n.2, hn⟩

theorem minimum_type_is_argument_witness :
    ∃ (i : Nat) (hi : i < [Ty.tag 2, Ty.tag 5, Ty.tag 3].length),
      [Ty.tag 2, Ty.tag 5, Ty.tag 3].get ⟨i, hi⟩ = Ty.tag 5 :=
  minimum_type_is_argument conv_chain [Ty.tag 2, Ty.tag 5, Ty.tag 3] (Ty.tag 5) (by decide)

theorem primitive_minimum_type_mutual (conv : Convertible) (a b : Ty)
    (h1 : a ≠ b → conv a b = true) (h2 : a ≠ b → conv b a = true) :
    primitive_minimum_type conv a b = some a := by
  by_cases hab : a = b
  · subst hab
    exact primitive_minimum_type_self conv a
  · rw [primitive_minimum_type_of_ne conv hab, h1 hab, h2 hab]
    rfl

theorem minimum_type_mutual (conv : Convertible) :
    ∀ (T0 : Ty) (Ts : List Ty),
      (∀ a ∈ T0 :: Ts, ∀ b ∈ T0 :: Ts, a ≠ b → conv a b = true) →
      minimum_type conv (T0 :: Ts) = some T0
  | T0, [], _ => rfl
  | T0, [T1], h =>
    primitive_minimum_type_mutual conv T0 T1
      (h T0 (by simp) T1 (by simp)) (fun hne => h T1 (by simp) T0 (by simp) (Ne.symm hne))
  | T0, T1 :: T2 :: Ts, h => by
    have hrest : minimum_type conv (T2 :: Ts) = some T2 :=
      minimum_type_mutual conv T2 Ts (fun a ha b hb =>
        h a (List.mem_cons_of_mem _ (List.mem_cons_of_mem _ ha))
          b (List.mem_cons_of_mem _ (List.mem_cons_of_mem _ hb)))
    have hpair : primitive_minimum_type conv T0 T1 = some T0 :=
      primitive_minimum_type_mutual conv T0 T1
        (h T0 (by simp) T1 (by simp)) (fun hne => h T1 (by simp) T0 (by simp) (Ne.symm hne))
    have hlast : primitive_minimum_type conv T0 T2 = some T0 :=
      primitive_minimum_type_mutual conv T0 T2
        (h T0 (by simp) T2 (by simp)) (fun hne => h T2 (by simp) T0 (by simp) (Ne.symm hne))
    rw [minimum_type_many, hrest, minimum_type_pair, hpair]
    exact hlast

/-- C20. For every non-empty type list in which every two distinct members
are convertible to each other in both directions, `minimum_type` is defined
and is the first type of the list. -/
theorem minimum_type_tie_break (conv : Convertible) (Ts : List Ty) (hne : Ts ≠ [])
    (hall : ∀ a ∈ Ts, ∀ b ∈ Ts, a ≠ b → conv a b = true ∧ conv b a = true) :
    minimum_type conv Ts = Ts.head? := by
  cases Ts with
  | nil => exact absurd rfl hne
  | cons T0 Ts =>
    exact minimum_type_mutual conv T0 Ts (fun a ha b hb hab => (hall a ha b hb hab).1)

theorem minimum_type_tie_break_witness :
    minimum_type conv_all [Ty.tag 3, Ty.tag 1, Ty.tag 2, Ty.tag 1, Ty.tag 0] =
      some (Ty.tag 3) :=
  minimum_type_tie_break conv_all [Ty.tag 3, Ty.tag 1, Ty.tag 2, Ty.tag 1, Ty.tag 0]
    (by decide) (by decide)

/-! ## The split of three or more arguments -/

theorem minimum_type_right_fold_cons (conv : Convertible) (T0 T1 : Ty) (Ts : List Ty) :
    minimum_type_right_fold conv (T0 :: T1 :: Ts) =
      (minimum_type_right_fold conv (T1 :: Ts)).bind
        (fun M => primitive_minimum_type conv T0 M) := by
  cases Ts with
  | nil => rfl
  | cons T2 Ts => rfl

theorem pair_winner_mem (conv : Convertible) (a b : Ty) {S : List Ty}
    (ha : a ∈ S) (hb : b ∈ S) : pair_winner conv a b ∈ S := by
  unfold pair_winner
  split
  · exact ha
  · exact hb

theorem primitive_minimum_type_eq_winner (conv : Convertible) (a b : Ty)
    (htot : a ≠ b → conv a b = true ∨ conv b a = true) :
    primitive_minimum_type conv a b = some (pair_winner conv a b) := by
  by_cases hab : a = b
  · subst hab
    simp [primitive_minimum_type_self, pair_winner]
  · rw [primitive_minimum_type_of_ne conv hab]
    cases h2 : conv b a
    · have h1 : conv a b = true := by
        rcases htot hab with h | h
        · exact h
        · rw [h2] at h
          exact Bool.noConfusion h
      simp [pair_winner, hab, h1, h2, minimum_type_impl]
    · cases h1 : conv a b <;> simp [pair_winner, h2, minimum_type_impl]

theorem pair_winner_assoc (conv : Convertible) (S : List Ty)
    (htrans : ∀ a ∈ S, ∀ b ∈ S, ∀ c ∈ S,
      conv a b = true → conv b c = true → conv a c = true)
    (htot : ∀ a ∈ S, ∀ b ∈ S, a ≠ b → conv a b = true ∨ conv b a = true)
    (a b c : Ty) (ha : a ∈ S) (hb : b ∈ S) (hc : c ∈ S) :
    pair_winner conv (pair_winner conv a b) c =
      pair_winner conv a (pair_winner conv b c) := by
  by_cases hab : a = b ∨ conv b a = true
  · by_cases hbc : b = c ∨ conv c b = true
    · have hac : a = c ∨ conv c a = true := by
        rcases hab with e | e
        · rw [e]; exact hbc
        · rcases hbc with e2 | e2
          · rw [← e2]; exact Or.inr e
          · exact Or.inr (htrans c hc b hb a ha e2 e)
      simp only [pair_winner, if_pos hab, if_pos hbc, if_pos hac]
    · simp only [pair_winner, if_pos hab, if_neg hbc]
  · by_cases hbc : b = c ∨ conv c b = true
    · simp only [pair_winner, if_neg hab, if_pos hbc]
    · have hne : a ≠ b := fun e => hab (Or.inl e)
      have hba : conv b a = false := by
        cases h : conv b a
        · rfl
        · exact absurd (Or.inr h) hab
      have hcb : conv c b = false := by
        cases h : conv c b
        · rfl
        · exact absurd (Or.inr h) hbc
      have hconv : conv a b = true := by
        rcases htot a ha b hb hne with h | h
        · exact h
        · rw [hba] at h
          exact Bool.noConfusion h
      have hac : ¬ (a = c ∨ conv c a = true) := by
        rintro (e | e)
        · rw [e] at hconv
          rw [hcb] at hconv
          exact Bool.noConfusion hconv
        · have := htrans c hc a ha b hb e hconv
          rw [hcb] at this
          exact Bool.noConfusion this
      simp only [pair_winner, if_neg hab, if_neg hbc, if_neg hac]

/-- Under a relation that is transitive on the members of the list and
relates every two distinct members, the resolver of the source and the right
fold are both defined and agree. -/
theorem minimum_type_eq_right_fold (conv : Convertible) :
    ∀ (T0 : Ty) (Ts : List Ty),
      (∀ a ∈ T0 :: Ts, ∀ b ∈ T0 :: Ts, ∀ c ∈ T0 :: Ts,
        conv a b = true → conv b c = true → conv a c = true) →
      (∀ a ∈ T0 :: Ts, ∀ b ∈ T0 :: Ts, a ≠ b → conv a b = true ∨ conv b a = true) →
      ∃ R, R ∈ T0 :: Ts ∧ minimum_type conv (T0 :: Ts) = some R ∧
        minimum_type_right_fold conv (T0 :: Ts) = some R
  | T0, [], _, _ => ⟨T0, by simp, rfl, rfl⟩
  | T0, [T1], _, htot => by
    have h := primitive_minimum_type_eq_winner conv T0 T1
      (htot T0 (by simp) T1 (by simp))
    exact ⟨pair_winner conv T0 T1,
      pair_winner_mem conv T0 T1 (by simp) (by simp), h, h⟩
  | T0, T1 :: T2 :: Ts, htrans, htot => by
    have h0 : T0 ∈ T0 :: T1 :: T2 :: Ts := by simp
    have h1 : T1 ∈ T0 :: T1 :: T2 :: Ts := by simp
    have hsub : ∀ x, x ∈ T2 :: Ts → x ∈ T0 :: T1 :: T2 :: Ts :=
      fun x hx => List.mem_cons_of_mem _ (List.mem_cons_of_mem _ hx)
    obtain ⟨c, hcmem, hcode, hfold⟩ := minimum_type_eq_right_fold conv T2 Ts
      (fun x hx y hy z hz => htrans x (hsub x hx) y (hsub y hy) z (hsub z hz))
      (fun x hx y hy => htot x (hsub x hx) y (hsub y hy))
    have hc := hsub c hcmem
    have hw1 : pair_winner conv T0 T1 ∈ T0 :: T1 :: T2 :: Ts :=
      pair_winner_mem conv T0 T1 h0 h1
    have hw2 : pair_winner conv T1 c ∈ T0 :: T1 :: T2 :: Ts :=
      pair_winner_mem conv T1 c h1 hc
    have e01 := primitive_minimum_type_eq_winner conv T0 T1 (htot T0 h0 T1 h1)
    have e1c := primitive_minimum_type_eq_winner conv T1 c (htot T1 h1 c hc)
    have ew1c := primitive_minimum_type_eq_winner conv (pair_winner conv T0 T1) c
      (htot _ hw1 c hc)
    have e0w := primitive_minimum_type_eq_winner conv T0 (pair_winner conv T1 c)
      (htot T0 h0 _ hw2)
    have hassoc := pair_winner_assoc conv _ htrans htot T0 T1 c h0 h1 hc
    refine ⟨pair_winner conv (pair_winner conv T0 T1) c,
      pair_winner_mem conv _ c hw1 hc, ?_, ?_⟩
    · rw [minimum_type_many, hcode, minimum_type_pair, e01]
      exact ew1c
    · rw [minimum_type_right_fold_cons, minimum_type_right_fold_cons, hfold]
      simp only [Option.bind_some, Option.some_bind]
      rw [e1c]
      simp only [Option.bind_some, Option.some_bind]
      rw [e0w, hassoc]

/-- C17, as stated, fails: under the partial order `conv_join` the list
tag 0, tag 1, tag 2 has no `minimum_type`, because its leading pair is
unrelated, while the right fold `minimum_type<tag 0, minimum_type<tag 1,
tag 2>>` is defined and is tag 2. -/
theorem minimum_type_not_right_fold :
    minimum_type conv_join [Ty.tag 0, Ty.tag 1, Ty.tag 2] = none ∧
    (minimum_type conv_join [Ty.tag 1, Ty.tag 2]).bind
      (fun M => minimum_type conv_join [Ty.tag 0, M]) = some (Ty.tag 2) ∧
    minimum_type_right_fold conv_join [Ty.tag 0, Ty.tag 1, Ty.tag 2] = some (Ty.tag 2) := by
  decide

/-- C17, amended. For every type list of arity 3 or more, `minimum_type` is
the pairwise resolution of the minimum of the leading pair against the
minimum of the arguments after it,
`minimum_type<minimum_type<T0,T1>, minimum_type<T2..Tn-1>>`, defined exactly
when that expression is and then the same type; when convertibility is
transitive on the members of the list and relates every two distinct
members in at least one direction, it is defined and equals the right fold
`minimum_type<T0, minimum_type<T1..Tn-1>>`. -/
theorem minimum_type_split (conv : Convertible) (T0 T1 T2 : Ty) (Ts : List Ty) :
    minimum_type conv (T0 :: T1 :: T2 :: Ts) =
      (minimum_type conv [T0, T1]).bind (fun a =>
        (minimum_type conv (T2 :: Ts)).bind (fun b => minimum_type conv [a, b])) ∧
    ((∀ a ∈ T0 :: T1 :: T2 :: Ts, ∀ b ∈ T0 :: T1 :: T2 :: Ts, ∀ c ∈ T0 :: T1 :: T2 :: Ts,
        conv a b = true → conv b c = true → conv a c = true) →
      (∀ a ∈ T0 :: T1 :: T2 :: Ts, ∀ b ∈ T0 :: T1 :: T2 :: Ts,
        a ≠ b → conv a b = true ∨ conv b a = true) →
      ∃ R, minimum_type conv (T0 :: T1 :: T2 :: Ts) = some R ∧
        (minimum_type conv (T1 :: T2 :: Ts)).bind
          (fun M => minimum_type conv [T0, M]) = some R ∧
        minimum_type_right_fold conv (T0 :: T1 :: T2 :: Ts) = some R) := by
  constructor
  · rw [minimum_type_many]
    cases minimum_type conv [T0, T1] with
    | none => rfl
    | some a =>
      cases minimum_type conv (T2 :: Ts) with
      | none => rfl
      | some b => rfl
  · intro htrans htot
    obtain ⟨R, _, hcode, hfold⟩ :=
      minimum_type_eq_right_fold conv T0 (T1 :: T2 :: Ts) htrans htot
    have hsub : ∀ x, x ∈ T1 :: T2 :: Ts → x ∈ T0 :: T1 :: T2 :: Ts :=
      fun x hx => List.mem_cons_of_mem _ hx
    obtain ⟨M, _, hcodeM, hfoldM⟩ := minimum_type_eq_right_fold conv T1 (T2 :: Ts)
      (fun x hx y hy z hz => htrans x (hsub x hx) y (hsub y hy) z (hsub z hz))
      (fun x hx y hy => htot x (hsub x hx) y (hsub y hy))
    refine ⟨R, hcode, ?_, hfold⟩
    rw [hcodeM]
    rw [minimum_type_right_fold_cons, hfoldM] at hfold
    exact hfold

theorem minimum_type_split_witness :
    ∃ R, minimum_type conv_chain [Ty.tag 2, Ty.tag 5, Ty.tag 3, Ty.tag 1] = some R ∧
      (minimum_type conv_chain [Ty.tag 5, Ty.tag 3, Ty.tag 1]).bind
        (fun M => minimum_type conv_chain [Ty.tag 2, M]) = some R ∧
      minimum_type_right_fold conv_chain [Ty.tag 2, Ty.tag 5, Ty.tag 3, Ty.tag 1] = some R :=
  (minimum_type_split conv_chain (Ty.tag 2) (Ty.tag 5) (Ty.tag 3) [Ty.tag 1]).2
    (fun a _ b _ c _ => conv_chain_trans a b c)
    (by decide)

end thrust
